import Mathlib

/-!
Shallow embedding of the CEnv library (`src/include/cenv.h`): a header-only
C library that loads `key=value` entries from a `.env` file into a growable
in-process store guarded by a single pthread mutex.

Strings are modelled as `List Char` (C byte strings without the terminating
NUL).  The allocation primitives (`malloc`, `realloc`, `strdup`) are modelled
by an allocation oracle `alloc : Nat → Bool` together with a tick counter
threaded through the computation: the n-th allocation performed succeeds
exactly when `alloc n` is `true`.  `FILE` input is modelled as the list of
strings `fgets` returns.

The mutex `ctx.mutex` is initialised with `PTHREAD_MUTEX_INITIALIZER`, i.e.
it is not recursive: locking it again from the thread that already holds it
blocks forever (POSIX `PTHREAD_MUTEX_NORMAL` semantics, which is what glibc
gives the default initialiser).  Every public entry point is called with the
mutex free, and each lock it takes directly is matched by an unlock on every
path, so the mutex state need not be carried in the store state; the one
place where a lock is attempted while the same thread already holds the
mutex is the call of `dotenv_resize` from inside the locked region of
`dotenv_load` (cenv.h lines 186-189).  Functions that can reach that
relock return `Option`: `none` means the call never returns.
-/

/-- Mirrors the whitespace set of `trim_whitespace`: space, tab, LF, CR. -/
def isWhitespaceC (c : Char) : Bool :=
  c = ' ' || c = '\t' || c = '\n' || c = '\r'

/-- The trailing-trim loop of `trim_whitespace` (cenv.h lines 64-73):
removes trailing whitespace characters. -/
def removeTrailing (l : List Char) : List Char :=
  (l.reverse.dropWhile isWhitespaceC).reverse

/-- Embeds `trim_whitespace` (cenv.h lines 51-76): drops leading whitespace,
then trailing whitespace.  The C guard `end > str` never bites because after
the leading trim the first character is not whitespace. -/
def trim_whitespace (l : List Char) : List Char :=
  removeTrailing (l.dropWhile isWhitespaceC)

/-- Embeds `env_var` (cenv.h lines 21-24). -/
structure env_var where
  key : List Char
  value : List Char
deriving DecidableEq, Repr

/-- Embeds `dotenv_context` (cenv.h lines 32-37).  `vars` holds the committed
entries (indices `0 ..< var_count`), so `var_count = vars.length`;
`initialized` models `ctx.vars != NULL`.  The mutex is not a field: see the
file comment. -/
structure dotenv_context where
  vars : List env_var
  capacity : Nat
  initialized : Bool
deriving DecidableEq, Repr

/-- The static initial context `ctx = {NULL, 0, 0, ...}` (cenv.h line 40). -/
def initCtx : dotenv_context := ⟨[], 0, false⟩

/-- The all-allocations-succeed oracle (a run with no memory exhaustion). -/
def allocOK : Nat → Bool := fun _ => true

/-- Embeds `dotenv_init` (cenv.h lines 86-104): locks the (free) mutex,
allocates the backing array only when `ctx.vars == NULL` (one allocation
tick on that path, which may fail), unlocks.  Returns
(return code, state, tick). -/
def dotenv_init (alloc : Nat → Bool) (s : dotenv_context) (t : Nat)
    (initial_capacity : Nat) : Int × dotenv_context × Nat :=
  if s.initialized then (0, s, t)
  else if alloc t then (0, ⟨[], initial_capacity, true⟩, t + 1)
  else (-1, s, t + 1)

/-- Embeds `dotenv_resize` (cenv.h lines 113-130).  Its first statement locks
`ctx.mutex`: when the caller already holds the mutex (`callerHoldsMutex`,
which is the case at its only call site, cenv.h line 189, inside the region
locked at line 186), the lock never succeeds and the call never returns
(`none`).  Otherwise the capacity is doubled via `realloc` (one allocation
tick); on allocation failure the state is unchanged. -/
def dotenv_resize (alloc : Nat → Bool) (callerHoldsMutex : Bool)
    (s : dotenv_context) (t : Nat) : Option (Int × dotenv_context × Nat) :=
  if callerHoldsMutex then none
  else
    let new_capacity := s.capacity * 2
    if alloc t then some (0, { s with capacity := new_capacity }, t + 1)
    else some (-1, s, t + 1)

/-- The newline strip of `dotenv_load` (cenv.h lines 160-170): on the
non-Windows build `ENV_NEWLINE` is `"\n"`, so both the `strstr` branch and
the `strchr` fallback truncate the buffer at its first `'\n'`. -/
def stripNewline (line : List Char) : List Char :=
  line.takeWhile (fun c => c ≠ '\n')

/-- The `strdup(key)`/`strdup(value)` commit step of `dotenv_load`
(cenv.h lines 196-206): both copies are attempted (two allocation ticks);
only when both succeed is the entry committed (`ctx.var_count++`). -/
def insertKV (alloc : Nat → Bool) (s : dotenv_context) (t : Nat)
    (key value : List Char) : Int × dotenv_context × Nat :=
  if alloc t && alloc (t + 1) then
    (0, { s with vars := s.vars ++ [⟨key, value⟩] }, t + 2)
  else (-1, s, t + 2)

/-- Embeds one iteration of the `fgets` loop of `dotenv_load`
(cenv.h lines 159-207) on an already-read raw line: newline strip, the
`line[0] == '#' || line[0] == '\0'` skip, the `strchr(line, '=')` split,
trimming of key and value, the empty-key skip, then — under the mutex
locked at line 186 — the capacity check with `dotenv_resize` (which relocks
the held mutex and therefore never returns) and the commit via `strdup`.
`some (0, ..)` when the line was skipped or committed, `some (-1, ..)` when
the load must abort, `none` when the iteration never returns. -/
def processLine (alloc : Nat → Bool) (s : dotenv_context) (t : Nat)
    (rawLine : List Char) : Option (Int × dotenv_context × Nat) :=
  let line := stripNewline rawLine
  if line.head? = some '#' ∨ line = [] then some (0, s, t)
  else if ¬ ('=' ∈ line) then some (0, s, t)
  else
    let key := trim_whitespace (line.takeWhile (fun c => c ≠ '='))
    let value := trim_whitespace ((line.dropWhile (fun c => c ≠ '=')).tail)
    if key = [] then some (0, s, t)
    else if s.vars.length ≥ s.capacity then
      match dotenv_resize alloc true s t with
      | none => none
      | some (r, s', t') =>
        if r = 0 then some (insertKV alloc s' t' key value)
        else some (-1, s', t')
    else some (insertKV alloc s t key value)

/-- The `while (fgets(...))` loop of `dotenv_load`: processes lines in order,
aborting with -1 as soon as a line fails; `none` propagates a line iteration
that never returns. -/
def loadLines (alloc : Nat → Bool) :
    List (List Char) → dotenv_context → Nat →
    Option (Int × dotenv_context × Nat)
  | [], s, t => some (0, s, t)
  | l :: rest, s, t =>
    match processLine alloc s t l with
    | none => none
    | some (r, s', t') =>
      if r = 0 then loadLines alloc rest s' t' else some (-1, s', t')

/-- Embeds `dotenv_load` (cenv.h lines 146-212) with the file already read
as its list of lines: `dotenv_init(10)` followed by the line loop
(`fopen` succeeding is part of the model). -/
def dotenv_load (alloc : Nat → Bool) (lines : List (List Char))
    (s : dotenv_context) (t : Nat) : Option (Int × dotenv_context × Nat) :=
  match dotenv_init alloc s t 10 with
  | (r, s', t') =>
    if r = 0 then loadLines alloc lines s' t' else some (-1, s', t')

/-- The scan loop of `dotenv_get` (cenv.h lines 225-230): first entry in
insertion order whose key compares equal under `strcmp`. -/
def dotenv_getAux : List env_var → List Char → Option (List Char)
  | [], _ => none
  | v :: rest, key =>
    if v.key = key then some v.value else dotenv_getAux rest key

/-- Embeds `dotenv_get` (cenv.h lines 222-234): locks the (free) mutex,
scans, unlocks. -/
def dotenv_get (s : dotenv_context) (key : List Char) : Option (List Char) :=
  dotenv_getAux s.vars key

/-- Embeds `dotenv_free` (cenv.h lines 241-258): when `ctx.vars` is non-NULL,
frees all entries and resets to `{NULL, 0, 0}`; otherwise does nothing. -/
def dotenv_free (s : dotenv_context) : dotenv_context :=
  if s.initialized then ⟨[], 0, false⟩ else s

/-- A line contributing zero entries in `dotenv_load`: blank, full-line
comment (raw first byte `#`), no `=` separator, or key trimming to empty. -/
def skippedLine (rawLine : List Char) : Prop :=
  stripNewline rawLine = [] ∨
  (stripNewline rawLine).head? = some '#' ∨
  ¬ ('=' ∈ stripNewline rawLine) ∨
  trim_whitespace ((stripNewline rawLine).takeWhile (fun c => c ≠ '=')) = []

instance (rawLine : List Char) : Decidable (skippedLine rawLine) := by
  unfold skippedLine; infer_instance

/-- Well-formedness of a reachable store state: the count/capacity invariant,
and an uninitialized store is the empty one (`ctx` starts as `{NULL, 0, 0}`
and `dotenv_free` restores exactly that). -/
def WF (s : dotenv_context) : Prop :=
  s.vars.length ≤ s.capacity ∧
  (s.initialized = false → s.vars = [] ∧ s.capacity = 0)

instance (s : dotenv_context) : Decidable (WF s) := by
  unfold WF; infer_instance

/-- Eleven well-formed entry lines, one more than the initial capacity 10
that `dotenv_load` passes to `dotenv_init`. -/
def elevenLines : List (List Char) :=
  ["K0=0".toList, "K1=1".toList, "K2=2".toList, "K3=3".toList,
   "K4=4".toList, "K5=5".toList, "K6=6".toList, "K7=7".toList,
   "K8=8".toList, "K9=9".toList, "K10=10".toList]

/-- Return code of a completed load (`none` when the load never returned). -/
def loadRet (o : Option (Int × dotenv_context × Nat)) : Option Int :=
  o.map (fun x => x.1)

/-- Store state of a completed load (`none` when the load never returned). -/
def loadState (o : Option (Int × dotenv_context × Nat)) :
    Option dotenv_context :=
  o.map (fun x => x.2.1)

/-- Test harness composing the public API as an application would:
`dotenv_load` on a fresh process (state `ctx = {NULL, 0, 0}`, no allocation
failures) followed by `dotenv_get`. -/
def getAfterLoad (lines : List (List Char)) (key : List Char) :
    Option (List Char) :=
  match dotenv_load allocOK lines initCtx 0 with
  | none => none
  | some (_, s, _) => dotenv_get s key

/-- Enumerates the four whitespace characters of `trim_whitespace`. -/
theorem isWhitespaceC_cases (c : Char) (h : isWhitespaceC c = true) :
    c = ' ' ∨ c = '\t' ∨ c = '\n' ∨ c = '\r' := by
  unfold isWhitespaceC at h
  simp only [Bool.or_eq_true, decide_eq_true_eq] at h
  tauto

/-- Removing trailing whitespace keeps a non-whitespace head. -/
theorem removeTrailing_cons (c : Char) (l : List Char)
    (hc : isWhitespaceC c = false) :
    removeTrailing (c :: l) = c :: removeTrailing l := by
  unfold removeTrailing
  rw [List.reverse_cons, List.dropWhile_append]
  by_cases h : (List.dropWhile isWhitespaceC l.reverse).isEmpty
  · rw [if_pos h]
    have h2 : List.dropWhile isWhitespaceC l.reverse = [] := by
      simpa [List.isEmpty_iff] using h
    rw [h2]
    simp [List.dropWhile, hc]
  · rw [if_neg h]
    simp

/-- The head surviving a `dropWhile` falsifies the predicate. -/
theorem dropWhile_head_false {p : Char → Bool} {l m : List Char} {c : Char}
    (h : l.dropWhile p = c :: m) : p c = false := by
  have hh := List.head?_dropWhile_not p l
  rw [h] at hh
  simpa using hh

/-- Trimming is trailing-removal after the leading drop. -/
theorem trim_of_dropWhile_cons {l m : List Char} {c : Char}
    (h : l.dropWhile isWhitespaceC = c :: m) :
    trim_whitespace l = c :: removeTrailing m := by
  unfold trim_whitespace
  rw [h, removeTrailing_cons c m (dropWhile_head_false h)]

/-- The head of a trimmed string is the head after the leading drop. -/
theorem head_trim {l : List Char} {c : Char}
    (h : (trim_whitespace l).head? = some c) :
    ∃ m, l.dropWhile isWhitespaceC = c :: m := by
  cases hd : l.dropWhile isWhitespaceC with
  | nil =>
    exfalso
    unfold trim_whitespace at h
    rw [hd] at h
    simp [removeTrailing] at h
  | cons x m =>
    have ht := trim_of_dropWhile_cons hd
    rw [ht] at h
    simp only [List.head?_cons, Option.some.injEq] at h
    subst h
    exact ⟨m, rfl⟩

/-- A line containing `=` splits at its first `=`, mirroring `strchr`. -/
theorem split_at_first_eq {l : List Char} (h : '=' ∈ l) :
    ∃ post, l.dropWhile (fun c => c ≠ '=') = '=' :: post ∧
      l = l.takeWhile (fun c => c ≠ '=') ++ '=' :: post ∧
      ¬ ('=' ∈ l.takeWhile (fun c => c ≠ '=')) := by
  cases hd : l.dropWhile (fun c => c ≠ '=') with
  | nil =>
    exfalso
    have hsplit := List.takeWhile_append_dropWhile (fun c => (decide (c ≠ '='))) l
    rw [hd, List.append_nil] at hsplit
    have hmem : '=' ∈ l.takeWhile (fun c => c ≠ '=') := by rw [hsplit]; exact h
    have := List.mem_takeWhile_imp hmem
    simp at this
  | cons x post =>
    have hx : (decide (x ≠ '=')) = false := dropWhile_head_false hd
    have hx' : x = '=' := by simpa using hx
    refine ⟨post, by rw [hx'], ?_, ?_⟩
    · conv_lhs => rw [← List.takeWhile_append_dropWhile (fun c => (decide (c ≠ '='))) l]
      rw [hd, hx']
    · intro hmem
      have := List.mem_takeWhile_imp hmem
      simp at this

/-- A line without a newline is unchanged by the newline strip. -/
theorem stripNewline_id {l : List Char} (h : ¬ '\n' ∈ l) : stripNewline l = l := by
  induction l with
  | nil => rfl
  | cons x xs ih =>
    have hx : x ≠ '\n' := fun he => h (he ▸ List.mem_cons_self x xs)
    have hxs : ¬ '\n' ∈ xs := fun hm => h (List.mem_cons_of_mem x hm)
    unfold stripNewline at *
    rw [List.takeWhile_cons, if_pos (by simpa using hx)]
    rw [ih hxs]

/-- A skipped line leaves the store, the tick and the return code alone. -/
theorem processLine_skip (alloc : Nat → Bool) (s : dotenv_context) (t : Nat)
    (rawLine : List Char) (h : skippedLine rawLine) :
    processLine alloc s t rawLine = some (0, s, t) := by
  unfold processLine
  unfold skippedLine at h
  by_cases h1 : (stripNewline rawLine).head? = some '#' ∨ stripNewline rawLine = []
  · rw [if_pos h1]
  · rw [if_neg h1]
    by_cases h2 : '=' ∈ stripNewline rawLine
    · rw [if_neg (not_not_intro h2)]
      have h3 : trim_whitespace ((stripNewline rawLine).takeWhile (fun c => c ≠ '=')) = [] := by
        rcases h with h | h | h | h
        · exact absurd (Or.inr h) h1
        · exact absurd (Or.inl h) h1
        · exact absurd h2 h
        · exact h
      rw [if_pos h3]
    · rw [if_pos h2]

/-- A well-formed entry line with spare capacity and no allocation failure
commits exactly one entry: key and value are the trimmed texts before and
after the first `=`. -/
theorem processLine_insert (s : dotenv_context) (t : Nat) (rawLine : List Char)
    (h1 : ¬ ((stripNewline rawLine).head? = some '#' ∨ stripNewline rawLine = []))
    (h2 : '=' ∈ stripNewline rawLine)
    (h3 : trim_whitespace ((stripNewline rawLine).takeWhile (fun c => c ≠ '=')) ≠ [])
    (hcap : s.vars.length < s.capacity) :
    processLine allocOK s t rawLine =
      some (0, { s with vars := s.vars ++
        [⟨trim_whitespace ((stripNewline rawLine).takeWhile (fun c => c ≠ '=')),
          trim_whitespace (((stripNewline rawLine).dropWhile (fun c => c ≠ '=')).tail)⟩] },
        t + 2) := by
  unfold processLine
  rw [if_neg h1, if_neg (not_not_intro h2), if_neg h3,
    if_neg (by omega : ¬ s.vars.length ≥ s.capacity)]
  simp [insertKV, allocOK]

/-- Whenever a line iteration returns, the old entries are kept in place
and at most one entry is appended. -/
theorem processLine_keepsVars (alloc : Nat → Bool) (s : dotenv_context) (t : Nat)
    (l : List Char) (r : Int) (s' : dotenv_context) (t' : Nat)
    (h : processLine alloc s t l = some (r, s', t')) :
    s.vars <+: s'.vars := by
  unfold processLine at h
  by_cases h1 : (stripNewline l).head? = some '#' ∨ stripNewline l = []
  · rw [if_pos h1] at h
    simp only [Option.some.injEq, Prod.mk.injEq] at h
    rw [← h.2.1]
  · rw [if_neg h1] at h
    by_cases h2 : '=' ∈ stripNewline l
    · rw [if_neg (not_not_intro h2)] at h
      by_cases h3 : trim_whitespace ((stripNewline l).takeWhile (fun c => c ≠ '=')) = []
      · rw [if_pos h3] at h
        simp only [Option.some.injEq, Prod.mk.injEq] at h
        rw [← h.2.1]
      · rw [if_neg h3] at h
        by_cases h4 : s.vars.length ≥ s.capacity
        · rw [if_pos h4] at h
          simp [dotenv_resize] at h
        · rw [if_neg h4] at h
          unfold insertKV at h
          by_cases ha : alloc t && alloc (t + 1)
          · rw [if_pos ha] at h
            simp only [Option.some.injEq, Prod.mk.injEq] at h
            rw [← h.2.1]
            exact ⟨[⟨_, _⟩], rfl⟩
          · rw [if_neg ha] at h
            simp only [Option.some.injEq, Prod.mk.injEq] at h
            rw [← h.2.1]
    · rw [if_pos h2] at h
      simp only [Option.some.injEq, Prod.mk.injEq] at h
      rw [← h.2.1]

/-- A failing line iteration (nonzero return) leaves the state unchanged:
the only reachable failure is a `strdup` failure before the commit. -/
theorem processLine_fail_state (alloc : Nat → Bool) (s : dotenv_context) (t : Nat)
    (l : List Char) (r : Int) (s' : dotenv_context) (t' : Nat)
    (h : processLine alloc s t l = some (r, s', t')) (hr : r ≠ 0) :
    s' = s := by
  unfold processLine at h
  by_cases h1 : (stripNewline l).head? = some '#' ∨ stripNewline l = []
  · rw [if_pos h1] at h
    simp only [Option.some.injEq, Prod.mk.injEq] at h
    exact absurd h.1.symm hr
  · rw [if_neg h1] at h
    by_cases h2 : '=' ∈ stripNewline l
    · rw [if_neg (not_not_intro h2)] at h
      by_cases h3 : trim_whitespace ((stripNewline l).takeWhile (fun c => c ≠ '=')) = []
      · rw [if_pos h3] at h
        simp only [Option.some.injEq, Prod.mk.injEq] at h
        exact absurd h.1.symm hr
      · rw [if_neg h3] at h
        by_cases h4 : s.vars.length ≥ s.capacity
        · rw [if_pos h4] at h
          simp [dotenv_resize] at h
        · rw [if_neg h4] at h
          unfold insertKV at h
          by_cases ha : alloc t && alloc (t + 1)
          · rw [if_pos ha] at h
            simp only [Option.some.injEq, Prod.mk.injEq] at h
            exact absurd h.1.symm hr
          · rw [if_neg ha] at h
            simp only [Option.some.injEq, Prod.mk.injEq] at h
            exact h.2.1.symm
    · rw [if_pos h2] at h
      simp only [Option.some.injEq, Prod.mk.injEq] at h
      exact absurd h.1.symm hr

/-- Whenever the line loop returns, the initial entries survive in place. -/
theorem loadLines_keepsVars (alloc : Nat → Bool) (lines : List (List Char)) :
    ∀ (s : dotenv_context) (t : Nat) (r : Int) (s' : dotenv_context) (t' : Nat),
    loadLines alloc lines s t = some (r, s', t') → s.vars <+: s'.vars := by
  induction lines with
  | nil =>
    intro s t r s' t' h
    unfold loadLines at h
    simp only [Option.some.injEq, Prod.mk.injEq] at h
    rw [← h.2.1]
  | cons l rest ih =>
    intro s t r s' t' h
    unfold loadLines at h
    cases hp : processLine alloc s t l with
    | none => rw [hp] at h; cases h
    | some v =>
      obtain ⟨r₁, s₁, t₁⟩ := v
      rw [hp] at h
      dsimp only at h
      by_cases hr : r₁ = 0
      · rw [if_pos hr] at h
        exact (processLine_keepsVars alloc s t l r₁ s₁ t₁ hp).trans
          (ih s₁ t₁ r s' t' h)
      · rw [if_neg hr] at h
        simp only [Option.some.injEq, Prod.mk.injEq] at h
        rw [← h.2.1]
        exact processLine_keepsVars alloc s t l r₁ s₁ t₁ hp

/-- A file of only skipped lines leaves the store untouched and returns 0. -/
theorem loadLines_skipAll (alloc : Nat → Bool) (lines : List (List Char)) :
    ∀ (s : dotenv_context) (t : Nat), (∀ l ∈ lines, skippedLine l) →
    loadLines alloc lines s t = some (0, s, t) := by
  induction lines with
  | nil => intro s t _; rfl
  | cons l rest ih =>
    intro s t h
    unfold loadLines
    rw [processLine_skip alloc s t l (h l (List.mem_cons_self l rest))]
    simpa using ih s t (fun x hx => h x (List.mem_cons_of_mem l hx))

/-- When the trimmed line content begins with `#`, so does the trimmed key
(the `#` precedes the first `=`, because whitespace is never `=`). -/
theorem key_headHash (line : List Char)
    (hhash : (trim_whitespace line).head? = some '#') :
    (trim_whitespace (line.takeWhile (fun x => x ≠ '='))).head? = some '#' := by
  obtain ⟨m, hd⟩ := head_trim hhash
  have hsplit : line = line.takeWhile isWhitespaceC ++ '#' :: m := by
    conv_lhs => rw [← List.takeWhile_append_dropWhile isWhitespaceC line]
    rw [hd]
  have hwsp : ∀ a ∈ line.takeWhile isWhitespaceC, isWhitespaceC a = true :=
    fun a ha => List.mem_takeWhile_imp ha
  have hwsp_ne : ∀ a ∈ line.takeWhile isWhitespaceC, (decide (a ≠ '=')) = true := by
    intro a ha
    rcases isWhitespaceC_cases a (hwsp a ha) with rfl | rfl | rfl | rfl <;> decide
  have htake : line.takeWhile (fun x => x ≠ '=') =
      line.takeWhile isWhitespaceC ++ '#' :: m.takeWhile (fun x => x ≠ '=') := by
    conv_lhs => rw [hsplit]
    rw [List.takeWhile_append_of_pos hwsp_ne, List.takeWhile_cons,
      if_pos (by decide : (decide ('#' ≠ '=')) = true)]
  rw [htake]
  unfold trim_whitespace
  rw [List.dropWhile_append_of_pos hwsp, List.dropWhile_cons,
    if_neg (by decide : ¬ isWhitespaceC '#' = true),
    removeTrailing_cons '#' _ (by decide)]
  rfl

/-- The `dotenv_get` scan returns the first entry with a matching key. -/
theorem getAux_firstMatch :
    ∀ (l₁ : List env_var) (e : env_var) (l₂ : List env_var) (key : List Char),
    e.key = key → (∀ v ∈ l₁, v.key ≠ key) →
    dotenv_getAux (l₁ ++ e :: l₂) key = some e.value := by
  intro l₁
  induction l₁ with
  | nil =>
    intro e l₂ key he _
    unfold dotenv_getAux
    rw [List.nil_append]
    simp [he]
  | cons v l₁ ih =>
    intro e l₂ key he hl
    rw [List.cons_append]
    unfold dotenv_getAux
    rw [if_neg (hl v (List.mem_cons_self v l₁))]
    exact ih e l₂ key he (fun w hw => hl w (List.mem_cons_of_mem v hw))

/-- The `dotenv_get` scan returns NULL when no key matches. -/
theorem getAux_noMatch :
    ∀ (l : List env_var) (key : List Char), (∀ v ∈ l, v.key ≠ key) →
    dotenv_getAux l key = none := by
  intro l
  induction l with
  | nil => intro key _; rfl
  | cons v l ih =>
    intro key h
    unfold dotenv_getAux
    rw [if_neg (h v (List.mem_cons_self v l))]
    exact ih key (fun w hw => h w (List.mem_cons_of_mem v hw))

/-- Claim C1 (code bug): the claim (and the repository README) says a value
containing the placeholder `${A}`, loaded after the line `A=foo`, is stored
with the placeholder replaced by `foo`.  The code performs no placeholder
substitution at all: the load succeeds and `dotenv_get` returns the value
with the literal text `${A}` still in it, not `foo`. -/
theorem C1_placeholder_not_substituted :
    loadRet (dotenv_load allocOK ["A=foo".toList, "B=${A}".toList] initCtx 0) = some 0 ∧
    getAfterLoad ["A=foo".toList, "B=${A}".toList] "B".toList = some "${A}".toList ∧
    getAfterLoad ["A=foo".toList, "B=${A}".toList] "B".toList ≠ some "foo".toList :=
  ⟨by decide, by decide, by decide⟩

/-- Claim C2 counterexample: on the unquoted line `KEY=value # comment` the
claim predicts stored value `value`; the code does not strip inline
comments, so the stored value is not `value`. -/
theorem C2_cex_inline_comment_kept :
    getAfterLoad ["KEY=value # comment".toList] "KEY".toList ≠ some "value".toList := by
  decide

/-- Claim C2 (amended): a `#` after the first byte of a line is never
treated as a comment, quoted or not: `KEY=value # comment` stores
`value # comment` and `KEY="value # not comment"` stores
`"value # not comment"` (quotes kept, see C3); only a line whose raw first
byte is `#` is skipped as a comment. -/
theorem C2_hash_literal_in_values :
    getAfterLoad ["KEY=value # comment".toList] "KEY".toList = some "value # comment".toList ∧
    getAfterLoad ["KEY=\"value # not comment\"".toList] "KEY".toList
      = some "\"value # not comment\"".toList ∧
    loadRet (dotenv_load allocOK ["#KEY=value".toList] initCtx 0) = some 0 ∧
    getAfterLoad ["#KEY=value".toList] "#KEY".toList = none :=
  ⟨by decide, by decide, by decide, by decide⟩

/-- Claim C3 counterexample: for the line `K="v"` the claim predicts that
the matched surrounding double quotes are removed, storing `v`; the code
stores the quotes literally. -/
theorem C3_cex_quotes_kept :
    getAfterLoad ["K=\"v\"".toList] "K".toList ≠ some "v".toList := by
  decide

/-- Claim C3 (amended): for every committed entry line the stored value is
the text after the first `=` trimmed of surrounding whitespace (space, tab,
CR, LF) only; surrounding double quotes are never removed, matched or not
(and the key is the trimmed text before the first `=`). -/
theorem C3_value_is_trimmed_text_after_eq (s : dotenv_context) (t : Nat)
    (rawLine : List Char)
    (hnl : ¬ '\n' ∈ rawLine)
    (hne : rawLine ≠ [])
    (hhash : rawLine.head? ≠ some '#')
    (heq : '=' ∈ rawLine)
    (hkey : trim_whitespace (rawLine.takeWhile (fun c => c ≠ '=')) ≠ [])
    (hcap : s.vars.length < s.capacity) :
    ∃ pre post, rawLine = pre ++ '=' :: post ∧ ¬ ('=' ∈ pre) ∧
      processLine allocOK s t rawLine =
        some (0, { s with vars := s.vars ++
          [⟨trim_whitespace pre, trim_whitespace post⟩] }, t + 2) := by
  have hstrip : stripNewline rawLine = rawLine := stripNewline_id hnl
  obtain ⟨post, hdrop, hsplit, hpre⟩ := split_at_first_eq heq
  refine ⟨rawLine.takeWhile (fun c => c ≠ '='), post, hsplit, hpre, ?_⟩
  have h1 : ¬ ((stripNewline rawLine).head? = some '#' ∨ stripNewline rawLine = []) := by
    rw [hstrip]
    push_neg
    exact ⟨hhash, hne⟩
  have h2 : '=' ∈ stripNewline rawLine := by rw [hstrip]; exact heq
  have h3 : trim_whitespace ((stripNewline rawLine).takeWhile (fun c => c ≠ '=')) ≠ [] := by
    rw [hstrip]; exact hkey
  rw [processLine_insert s t rawLine h1 h2 h3 hcap, hstrip, hdrop]
  rfl

/-- Claim C4: `dotenv_get` scans the entries in insertion order and returns
the value of the first entry whose key equals the queried key byte for
byte, and NULL when no entry matches; with a duplicated key the
first-inserted value wins. -/
theorem C4_get_first_match (s : dotenv_context) (key : List Char) :
    (∀ (l₁ : List env_var) (e : env_var) (l₂ : List env_var),
      s.vars = l₁ ++ e :: l₂ → e.key = key → (∀ v ∈ l₁, v.key ≠ key) →
      dotenv_get s key = some e.value) ∧
    ((∀ v ∈ s.vars, v.key ≠ key) → dotenv_get s key = none) := by
  constructor
  · intro l₁ e l₂ hs he hl
    unfold dotenv_get
    rw [hs]
    exact getAux_firstMatch l₁ e l₂ key he hl
  · intro h
    exact getAux_noMatch s.vars key h

/-- Witness for C4: a store with a duplicated key `A` returns the
first-inserted value, and an absent key `B` returns NULL. -/
theorem C4_witness :
    dotenv_get ⟨[⟨"A".toList, "1".toList⟩, ⟨"A".toList, "2".toList⟩], 10, true⟩ "A".toList
      = some "1".toList ∧
    dotenv_get ⟨[⟨"A".toList, "1".toList⟩, ⟨"A".toList, "2".toList⟩], 10, true⟩ "B".toList
      = none :=
  ⟨(C4_get_first_match _ _).1 [] ⟨"A".toList, "1".toList⟩ [⟨"A".toList, "2".toList⟩]
      rfl rfl (by decide),
   (C4_get_first_match _ _).2 (by decide)⟩

/-- Claim C5 (code bug): the claim says that when an insert finds the store
at capacity, the capacity is doubled, so loading 11 entries with initial
capacity 10 succeeds with all entries retrievable.  In the code,
`dotenv_load` already holds `ctx.mutex` (locked at cenv.h line 186) when it
calls `dotenv_resize`, whose first statement locks the same non-recursive
mutex again (cenv.h line 114) and therefore never returns: the eleventh
insert deadlocks and that load never succeeds, while ten entries (no resize
needed) load fine. -/
theorem C5_growth_deadlocks :
    dotenv_load allocOK elevenLines initCtx 0 = none ∧
    loadRet (dotenv_load allocOK (elevenLines.take 10) initCtx 0) = some 0 ∧
    (loadState (dotenv_load allocOK (elevenLines.take 10) initCtx 0)).map
      (fun s => s.vars.length) = some 10 :=
  ⟨by decide, by decide, by decide⟩

/-- Witness for C3: the line `K= v ` commits key `K`, value `v`. -/
theorem C3_witness :
    (¬ '\n' ∈ "K= v ".toList) ∧ "K= v ".toList ≠ [] ∧
    "K= v ".toList.head? ≠ some '#' ∧ '=' ∈ "K= v ".toList ∧
    trim_whitespace ("K= v ".toList.takeWhile (fun c => c ≠ '=')) ≠ [] ∧
    (⟨[], 10, true⟩ : dotenv_context).vars.length
      < (⟨[], 10, true⟩ : dotenv_context).capacity ∧
    (∃ pre post, "K= v ".toList = pre ++ '=' :: post ∧ ¬ ('=' ∈ pre) ∧
      processLine allocOK ⟨[], 10, true⟩ 0 "K= v ".toList =
        some (0, { (⟨[], 10, true⟩ : dotenv_context) with
          vars := (⟨[], 10, true⟩ : dotenv_context).vars ++
            [⟨trim_whitespace pre, trim_whitespace post⟩] }, 0 + 2)) :=
  ⟨by decide, by decide, by decide, by decide, by decide, by decide,
   C3_value_is_trimmed_text_after_eq ⟨[], 10, true⟩ 0 "K= v ".toList
     (by decide) (by decide) (by decide) (by decide) (by decide) (by decide)⟩

/-- Claim C6: blank lines, full-line comments (raw first byte `#`), lines
without `=`, and lines whose key trims to empty contribute zero entries,
are not reported as errors, and do not stop the load: the load returns 0
with the store unchanged, and a skipped line hands control to the next
line. -/
theorem C6_malformed_lines_skipped (s : dotenv_context) (t : Nat)
    (lines : List (List Char)) (hwf : WF s)
    (h : ∀ l ∈ lines, skippedLine l) :
    (∃ s' t', dotenv_load allocOK lines s t = some (0, s', t') ∧
      s'.vars = s.vars) ∧
    (∀ (l : List Char) (rest : List (List Char)) (s₀ : dotenv_context)
      (t₀ : Nat), skippedLine l →
      loadLines allocOK (l :: rest) s₀ t₀ = loadLines allocOK rest s₀ t₀) := by
  constructor
  · by_cases hi : s.initialized = true
    · have hinit : dotenv_init allocOK s t 10 = (0, s, t) := by
        unfold dotenv_init; rw [if_pos hi]
      unfold dotenv_load
      rw [hinit]
      dsimp only
      rw [if_pos rfl]
      exact ⟨s, t, loadLines_skipAll allocOK lines s t h, rfl⟩
    · have hinit : dotenv_init allocOK s t 10 = (0, ⟨[], 10, true⟩, t + 1) := by
        unfold dotenv_init
        rw [if_neg hi]
        rfl
      unfold dotenv_load
      rw [hinit]
      dsimp only
      rw [if_pos rfl]
      refine ⟨⟨[], 10, true⟩, t + 1, loadLines_skipAll allocOK lines _ _ h, ?_⟩
      have hv : s.vars = [] := (hwf.2 (by simpa using hi)).1
      simp [hv]
  · intro l rest s₀ t₀ hl
    rw [loadLines, processLine_skip allocOK s₀ t₀ l hl]
    dsimp only
    rw [if_pos rfl]

/-- Witness for C6: a comment line, an empty line, a line without `=` and
an empty-key line load as a no-op with return code 0. -/
theorem C6_witness :
    WF initCtx ∧
    (∀ l ∈ ["# full comment".toList, "".toList, "no separator".toList,
      "   =value".toList], skippedLine l) ∧
    ((∃ s' t', dotenv_load allocOK ["# full comment".toList, "".toList,
        "no separator".toList, "   =value".toList] initCtx 0 = some (0, s', t') ∧
        s'.vars = initCtx.vars) ∧
      (∀ (l : List Char) (rest : List (List Char)) (s₀ : dotenv_context)
        (t₀ : Nat), skippedLine l →
        loadLines allocOK (l :: rest) s₀ t₀ = loadLines allocOK rest s₀ t₀)) :=
  ⟨by decide, by decide,
   C6_malformed_lines_skipped initCtx 0 _ (by decide) (by decide)⟩

/-- Claim C7: after `dotenv_free` the store is the empty, zero-capacity,
uninitialized state, so `dotenv_get` of any key returns NULL; a subsequent
`dotenv_load` re-initializes and behaves exactly like a load on a fresh
process (re-entrant lifecycle). -/
theorem C7_free_resets (s : dotenv_context) (hwf : WF s) :
    dotenv_free s = initCtx ∧
    (∀ key, dotenv_get (dotenv_free s) key = none) ∧
    (∀ (alloc : Nat → Bool) (lines : List (List Char)) (t : Nat),
      dotenv_load alloc lines (dotenv_free s) t =
        dotenv_load alloc lines initCtx t) := by
  have hfree : dotenv_free s = initCtx := by
    unfold dotenv_free
    by_cases hi : s.initialized = true
    · rw [if_pos hi]
      rfl
    · rw [if_neg hi]
      have hi' : s.initialized = false := by simpa using hi
      obtain ⟨hv, hc⟩ := hwf.2 hi'
      cases s
      simp only at hv hc hi'
      rw [hv, hc, hi']
      rfl
  exact ⟨hfree, fun key => by rw [hfree]; rfl, fun alloc lines t => by rw [hfree]⟩

/-- Witness for C7: freeing a one-entry store resets it to the initial
state. -/
theorem C7_witness :
    WF (⟨[⟨"A".toList, "1".toList⟩], 10, true⟩ : dotenv_context) ∧
    (dotenv_free ⟨[⟨"A".toList, "1".toList⟩], 10, true⟩ = initCtx ∧
     (∀ key, dotenv_get (dotenv_free ⟨[⟨"A".toList, "1".toList⟩], 10, true⟩) key = none) ∧
     (∀ (alloc : Nat → Bool) (lines : List (List Char)) (t : Nat),
       dotenv_load alloc lines (dotenv_free ⟨[⟨"A".toList, "1".toList⟩], 10, true⟩) t =
         dotenv_load alloc lines initCtx t)) :=
  ⟨by decide, C7_free_resets _ (by decide)⟩

/-- Claim C8: when an allocation fails while a line is being committed, the
load aborts immediately with -1 — the remaining lines are never processed —
and every entry committed before the failure is preserved unmodified.  (The
reachable failures are the `strdup` copies; the growth path never reaches
its `realloc`, see C5.) -/
theorem C8_alloc_failure_aborts (alloc : Nat → Bool) (s : dotenv_context)
    (t : Nat) (l : List Char) (rest : List (List Char))
    (r : Int) (s' : dotenv_context) (t' : Nat)
    (h : processLine alloc s t l = some (r, s', t')) (hr : r ≠ 0) :
    loadLines alloc (l :: rest) s t = some (-1, s', t') ∧
    s'.vars = s.vars := by
  constructor
  · unfold loadLines
    rw [h]
    dsimp only
    rw [if_neg hr]
  · rw [processLine_fail_state alloc s t l r s' t' h hr]

/-- Witness for C8: an oracle failing every allocation makes the line
`B=2` fail; the pre-existing entry survives and `C=3` is not processed. -/
theorem C8_witness :
    processLine (fun _ => false) ⟨[⟨"A".toList, "1".toList⟩], 10, true⟩ 0 "B=2".toList
      = some (-1, ⟨[⟨"A".toList, "1".toList⟩], 10, true⟩, 2) ∧
    ((-1 : Int) ≠ 0) ∧
    (loadLines (fun _ => false) ["B=2".toList, "C=3".toList]
        ⟨[⟨"A".toList, "1".toList⟩], 10, true⟩ 0
      = some (-1, ⟨[⟨"A".toList, "1".toList⟩], 10, true⟩, 2) ∧
     (⟨[⟨"A".toList, "1".toList⟩], 10, true⟩ : dotenv_context).vars
      = (⟨[⟨"A".toList, "1".toList⟩], 10, true⟩ : dotenv_context).vars) :=
  ⟨by decide, by decide,
   C8_alloc_failure_aborts (fun _ => false) ⟨[⟨"A".toList, "1".toList⟩], 10, true⟩ 0
     "B=2".toList ["C=3".toList] (-1) ⟨[⟨"A".toList, "1".toList⟩], 10, true⟩ 2
     (by decide) (by decide)⟩

/-- Claim C9: comment skipping tests only the raw first byte of the line:
a line whose first byte is whitespace, whose trimmed content begins with
`#`, and which contains `=`, is not skipped — it commits an entry whose key
begins with `#`. -/
theorem C9_raw_first_byte_comment (s : dotenv_context) (t : Nat)
    (c : Char) (rest : List Char)
    (hws : isWhitespaceC c = true)
    (hnl : ¬ '\n' ∈ (c :: rest))
    (hhash : (trim_whitespace (c :: rest)).head? = some '#')
    (heq : '=' ∈ (c :: rest))
    (hcap : s.vars.length < s.capacity) :
    processLine allocOK s t (c :: rest) =
      some (0, { s with vars := s.vars ++
        [⟨trim_whitespace ((c :: rest).takeWhile (fun x => x ≠ '=')),
          trim_whitespace (((c :: rest).dropWhile (fun x => x ≠ '=')).tail)⟩] },
        t + 2) ∧
    (trim_whitespace ((c :: rest).takeWhile (fun x => x ≠ '='))).head? = some '#' := by
  have hkey := key_headHash (c :: rest) hhash
  have hstrip : stripNewline (c :: rest) = c :: rest := stripNewline_id hnl
  have hch : c ≠ '#' := by
    rcases isWhitespaceC_cases c hws with rfl | rfl | rfl | rfl <;> decide
  have h1 : ¬ ((stripNewline (c :: rest)).head? = some '#' ∨
      stripNewline (c :: rest) = []) := by
    rw [hstrip]
    push_neg
    exact ⟨by simp [hch], by simp⟩
  have h2 : '=' ∈ stripNewline (c :: rest) := by rw [hstrip]; exact heq
  have h3 : trim_whitespace
      ((stripNewline (c :: rest)).takeWhile (fun x => x ≠ '=')) ≠ [] := by
    rw [hstrip]
    intro hnil
    rw [hnil] at hkey
    simp at hkey
  refine ⟨?_, hkey⟩
  rw [processLine_insert s t (c :: rest) h1 h2 h3 hcap, hstrip]

/-- Witness for C9: the line `  #A=1` commits key `#A`, value `1`. -/
theorem C9_witness :
    isWhitespaceC ' ' = true ∧
    (¬ '\n' ∈ (' ' :: " #A=1".toList)) ∧
    (trim_whitespace (' ' :: " #A=1".toList)).head? = some '#' ∧
    '=' ∈ (' ' :: " #A=1".toList) ∧
    (⟨[], 10, true⟩ : dotenv_context).vars.length
      < (⟨[], 10, true⟩ : dotenv_context).capacity ∧
    (processLine allocOK ⟨[], 10, true⟩ 0 (' ' :: " #A=1".toList) =
      some (0, { (⟨[], 10, true⟩ : dotenv_context) with
        vars := (⟨[], 10, true⟩ : dotenv_context).vars ++
          [⟨trim_whitespace ((' ' :: " #A=1".toList).takeWhile (fun x => x ≠ '=')),
            trim_whitespace (((' ' :: " #A=1".toList).dropWhile (fun x => x ≠ '=')).tail)⟩] },
        0 + 2) ∧
      (trim_whitespace ((' ' :: " #A=1".toList).takeWhile (fun x => x ≠ '='))).head?
        = some '#') ∧
    trim_whitespace ((' ' :: " #A=1".toList).takeWhile (fun x => x ≠ '=')) = "#A".toList ∧
    trim_whitespace (((' ' :: " #A=1".toList).dropWhile (fun x => x ≠ '=')).tail) = "1".toList :=
  ⟨by decide, by decide, by decide, by decide, by decide,
   C9_raw_first_byte_comment ⟨[], 10, true⟩ 0 ' ' " #A=1".toList
     (by decide) (by decide) (by decide) (by decide) (by decide),
   by decide, by decide⟩

/-- Claim C10: a load never removes or alters existing entries — whenever
it returns, the previous entry list is an initial segment of the new one,
with new entries only appended — and `dotenv_init` on an initialized (in
particular non-empty) store is a no-op. -/
theorem C10_load_appends_only (alloc : Nat → Bool) (lines : List (List Char))
    (s : dotenv_context) (t : Nat) (c : Nat)
    (r : Int) (s' : dotenv_context) (t' : Nat) (hwf : WF s)
    (h : dotenv_load alloc lines s t = some (r, s', t')) :
    s.vars <+: s'.vars ∧
    (s.vars ≠ [] → dotenv_init alloc s t c = (0, s, t)) := by
  constructor
  · by_cases hi : s.initialized = true
    · have hinit : dotenv_init alloc s t 10 = (0, s, t) := by
        unfold dotenv_init; rw [if_pos hi]
      unfold dotenv_load at h
      rw [hinit] at h
      dsimp only at h
      rw [if_pos rfl] at h
      exact loadLines_keepsVars alloc lines s t r s' t' h
    · have hv : s.vars = [] := (hwf.2 (by simpa using hi)).1
      rw [hv]
      exact ⟨s'.vars, rfl⟩
  · intro hne
    have hi : s.initialized = true := by
      by_contra hni
      exact hne (hwf.2 (by simpa using hni)).1
    unfold dotenv_init
    rw [if_pos hi]

/-- Witness for C10: loading `B=2` onto a store holding `A=1` keeps `A=1`
in place and appends `B=2`; `dotenv_init` is a no-op there. -/
theorem C10_witness :
    WF (⟨[⟨"A".toList, "1".toList⟩], 10, true⟩ : dotenv_context) ∧
    dotenv_load allocOK ["B=2".toList] ⟨[⟨"A".toList, "1".toList⟩], 10, true⟩ 0
      = some (0, ⟨[⟨"A".toList, "1".toList⟩, ⟨"B".toList, "2".toList⟩], 10, true⟩, 2) ∧
    ((⟨[⟨"A".toList, "1".toList⟩], 10, true⟩ : dotenv_context).vars <+:
       (⟨[⟨"A".toList, "1".toList⟩, ⟨"B".toList, "2".toList⟩], 10, true⟩ : dotenv_context).vars ∧
     ((⟨[⟨"A".toList, "1".toList⟩], 10, true⟩ : dotenv_context).vars ≠ [] →
       dotenv_init allocOK ⟨[⟨"A".toList, "1".toList⟩], 10, true⟩ 0 10
         = (0, ⟨[⟨"A".toList, "1".toList⟩], 10, true⟩, 0))) :=
  ⟨by decide, by decide,
   C10_load_appends_only allocOK ["B=2".toList] ⟨[⟨"A".toList, "1".toList⟩], 10, true⟩ 0 10
     0 ⟨[⟨"A".toList, "1".toList⟩, ⟨"B".toList, "2".toList⟩], 10, true⟩ 2
     (by decide) (by decide)⟩
